import Mathlib

/-!
Shallow embedding of the capability-based microkernel
(capability store, agent registry, IPC, VFS, and the Wasm host-call
adapters' decision logic). Kernel globals behind mutexes are modelled by
explicit state passing; `BTreeMap` is modelled by an association list with
first-match lookup; `u64`/`usize` values are modelled as `Nat` (no
arithmetic in the modelled code paths can overflow a machine word for the
inputs the kernel constructs, and the comparisons involved are monotone).
Host calls are modelled from the point where their string/byte inputs have
already been copied out of guest linear memory; guest-memory traps are
outside the model.
-/

namespace Microkernel

/-- Capability records, from `enum Capability` in src/src/capability.rs.
The `FileSystem` variant is absent from the `capability.rs` present in the
tree but is constructed by `request_capability` and consumed by
`can_read_file`/`can_write_file` in src/src/wasm.rs; that variant is
modelled from the spec: `FileSystem{path_prefix, read, write}` guards VFS
paths beginning with `path_prefix`. -/
inductive Capability where
  | Memory (base size : Nat) (read write execute : Bool)
  | Interrupt (irq : Nat)
  | Port (port : Nat)
  | Process (pid : Nat) (can_send can_receive : Bool)
  | Spawn (max_children : Nat)
  | Network
  | FileSystem ( path_prefix : String) (read write : Bool)
  deriving DecidableEq

/-- The global capability store (`CAPABILITY_STORE` and `NEXT_CAP_ID` in
src/src/capability.rs), modelled as explicit state: an association list of
issued capabilities keyed by id, plus the next-id counter. -/
structure CapStore where
  entries : List (Nat × Capability)
  next : Nat
  deriving DecidableEq

/-- Model of `validate_capability`: look the id up in the store. -/
def validate_capability (s : CapStore) (id : Nat) : Option Capability :=
  s.entries.lookup id

/-- Model of `create_capability`: allocate the next id and insert. -/
def create_capability (s : CapStore) (c : Capability) : Nat × CapStore :=
  (s.next, ⟨(s.next, c) :: s.entries, s.next + 1⟩)

/-- Model of `revoke_capability`: remove the entry for the id; the returned
Bool tells whether it existed. -/
def revoke_capability (s : CapStore) (id : Nat) : CapStore × Bool :=
  (⟨s.entries.filter (fun p => p.1 != id), s.next⟩, (s.entries.lookup id).isSome)

/-- Model of `find_capability` in src/src/capability.rs: true iff some id in
`caps` resolves in the store to a capability satisfying the predicate
(unresolvable ids are filtered out by the `filter_map`). -/
def find_capability (s : CapStore) (caps : List Nat) (p : Capability → Bool) : Bool :=
  caps.any (fun id =>
    match validate_capability s id with
    | some c => p c
    | none => false)

/-- Model of `can_read_memory`: some resolvable `Memory` capability with
`read = true` covers `addr` (`addr >= base && addr < base + size`). -/
def can_read_memory (s : CapStore) (caps : List Nat) (addr : Nat) : Bool :=
  find_capability s caps (fun c =>
    match c with
    | .Memory base size true _ _ => decide (base ≤ addr) && decide (addr < base + size)
    | _ => false)

/-- Model of `can_write_memory`. -/
def can_write_memory (s : CapStore) (caps : List Nat) (addr : Nat) : Bool :=
  find_capability s caps (fun c =>
    match c with
    | .Memory base size _ true _ => decide (base ≤ addr) && decide (addr < base + size)
    | _ => false)

/-- Model of `can_send_to`. -/
def can_send_to (s : CapStore) (caps : List Nat) (target_pid : Nat) : Bool :=
  find_capability s caps (fun c =>
    match c with
    | .Process pid true _ => decide (pid = target_pid)
    | _ => false)

/-- Model of `can_spawn`. -/
def can_spawn (s : CapStore) (caps : List Nat) : Bool :=
  find_capability s caps (fun c =>
    match c with
    | .Spawn _ => true
    | _ => false)

/-- Model of `can_access_network`. -/
def can_access_network (s : CapStore) (caps : List Nat) : Bool :=
  find_capability s caps (fun c =>
    match c with
    | .Network => true
    | _ => false)

/-- Modelled from the spec: `can_read_file` is called by the `file_read` and
`file_list` host functions in src/src/wasm.rs but is absent from the
`capability.rs` present in the tree. Spec §4.3: requires a `FileSystem`
capability whose `path_prefix` is a prefix of `path` and whose `read=true`;
prefix matching is byte-exact (`str::starts_with`), modelled on the
character sequences: for valid UTF-8, byte-prefix and character-prefix
coincide. -/
def can_read_file (s : CapStore) (caps : List Nat) (path : String) : Bool :=
  find_capability s caps (fun c =>
    match c with
    | .FileSystem pfx true _ => pfx.data.isPrefixOf path.data
    | _ => false)

/-- Modelled from the spec: `can_write_file`, as `can_read_file` but with
`write=true` required. Absent from the `capability.rs` present in the tree;
called by the `file_write` host function in src/src/wasm.rs. -/
def can_write_file (s : CapStore) (caps : List Nat) (path : String) : Bool :=
  find_capability s caps (fun c =>
    match c with
    | .FileSystem pfx _ true => pfx.data.isPrefixOf path.data
    | _ => false)

/-- An IPC message, from `struct Message` in src/src/ipc.rs. Payload bytes
are modelled as `List Nat`. -/
structure Message where
  sender : Nat
  data : List Nat
  capabilities : List Nat
  deriving DecidableEq

/-- An IPC endpoint, from `struct IpcEndpoint` in src/src/ipc.rs. -/
structure IpcEndpoint where
  messages : List Message
  max_messages : Nat
  deriving DecidableEq

/-- The global `IPC_ENDPOINTS` map, keyed by `ProcessId` (a `u64`). -/
abbrev Endpoints := List (Nat × IpcEndpoint)

/-- Replace the value stored at the first occurrence of the key (models an
in-place `get_mut` update of the unique `BTreeMap` entry). Identity when
the key is absent. -/
def setEndpoint : Endpoints → Nat → IpcEndpoint → Endpoints
  | [], _, _ => []
  | (k, v) :: rest, pid, ep =>
    if k = pid then (k, ep) :: rest else (k, v) :: setEndpoint rest pid ep

/-- Model of `create_endpoint` in src/src/ipc.rs: error if the pid already
has one, else insert an empty endpoint with `max_messages = 32`. -/
def create_endpoint (eps : Endpoints) (process_id : Nat) : Except String Endpoints :=
  if (eps.lookup process_id).isSome then .error "Endpoint already exists"
  else .ok ((process_id, ⟨[], 32⟩) :: eps)

/-- Model of `send_message` in src/src/ipc.rs: validate every capability id
(first failure rejects the whole send), then find the recipient endpoint,
then check the queue bound, then push. Each early return leaves the
endpoint state exactly as it was. -/
def send_message (store : CapStore) (eps : Endpoints) (sender recipient : Nat)
    (data : List Nat) (capabilities : List Nat) : Except String Unit × Endpoints :=
  if capabilities.any (fun id => (validate_capability store id).isNone) then
    (.error "Invalid capability", eps)
  else
    match eps.lookup recipient with
    | none => (.error "No such endpoint", eps)
    | some ep =>
      if ep.max_messages ≤ ep.messages.length then
        (.error "Message queue full", eps)
      else
        (.ok (), setEndpoint eps recipient
          ⟨ep.messages ++ [⟨sender, data, capabilities⟩], ep.max_messages⟩)

/-- Model of `receive_message` in src/src/ipc.rs: pop the head of the
recipient's queue (`messages.remove(0)`), if any. -/
def receive_message (eps : Endpoints) (process_id : Nat) : Option Message × Endpoints :=
  match eps.lookup process_id with
  | some ep =>
    match ep.messages with
    | [] => (none, eps)
    | m :: rest => (some m, setEndpoint eps process_id ⟨rest, ep.max_messages⟩)
  | none => (none, eps)

/-- Agent lifecycle state, from `enum AgentState` in src/src/task.rs. -/
inductive AgentState where
  | Running
  | Terminated
  deriving DecidableEq

/-- An agent record, from `struct Agent` in src/src/task.rs. -/
structure Agent where
  id : Nat
  name : String
  capabilities : List Nat
  state : AgentState
  deriving DecidableEq

/-- The global agent `Registry` in src/src/task.rs. -/
structure Registry where
  agents : List (Nat × Agent)
  next_id : Nat
  deriving DecidableEq

/-- Apply `f` to the agent stored at the first occurrence of the key
(models `get_mut`); identity when the id is absent. -/
def updateAgent : List (Nat × Agent) → Nat → (Agent → Agent) → List (Nat × Agent)
  | [], _, _ => []
  | (k, a) :: rest, id, f =>
    if k = id then (k, f a) :: rest else (k, a) :: updateAgent rest id f

/-- Model of `spawn_agent` in src/src/task.rs. -/
def spawn_agent (reg : Registry) (name : String) (capabilities : List Nat) :
    Nat × Registry :=
  (reg.next_id,
    ⟨(reg.next_id, ⟨reg.next_id, name, capabilities, .Running⟩) :: reg.agents,
      reg.next_id + 1⟩)

/-- Model of `agent_capabilities` in src/src/task.rs: a snapshot of the bag,
empty when the id is unknown. -/
def agent_capabilities (reg : Registry) (agent_id : Nat) : List Nat :=
  ((reg.agents.lookup agent_id).map (·.capabilities)).getD []

/-- Model of `grant_capability_to_agent` in src/src/task.rs: push the id
onto the bag of the agent if it exists (no state check, no return value);
silently a no-op otherwise. -/
def grant_capability_to_agent (reg : Registry) (agent_id cap : Nat) : Registry :=
  ⟨updateAgent reg.agents agent_id
      (fun a => { a with capabilities := a.capabilities ++ [cap] }),
    reg.next_id⟩

/-- Model of `terminate_agent` in src/src/task.rs: mark the agent
`Terminated` if it exists (its bag is left in place). -/
def terminate_agent (reg : Registry) (agent_id : Nat) : Registry :=
  ⟨updateAgent reg.agents agent_id (fun a => { a with state := .Terminated }),
    reg.next_id⟩

/-- A VFS entry, from `struct VirtualFile` in src/src/vfs.rs. -/
structure VirtualFile where
  name : String
  data : List Nat
  owner_pid : Nat
  read_only : Bool
  deriving DecidableEq

/-- The global VFS registry: a plain `Vec` of files. -/
abbrev Vfs := List VirtualFile

/-- Model of `register_file` in src/src/vfs.rs: unconditionally push a
read-only system file owned by pid 0. -/
def register_file (vfs : Vfs) (name : String) (data : List Nat) : Vfs :=
  vfs ++ [⟨name, data, 0, true⟩]

/-- Model of `open_file` in src/src/vfs.rs: data of the first entry with the
given name. -/
def open_file (vfs : Vfs) (name : String) : Option (List Nat) :=
  (vfs.find? (fun f => f.name == name)).map (·.data)

/-- Model of `list_files_prefix` in src/src/vfs.rs. -/
def list_files_prefix (vfs : Vfs) (pfx : String) : List String :=
  (vfs.filter (fun f => pfx.data.isPrefixOf f.name.data)).map (·.name)

/-- Model of `write_file` in src/src/vfs.rs: find the first entry with the
name; refuse if it is read-only, else overwrite its data and owner in
place; when no entry matches, push a fresh writable file at the end. -/
def write_file : Vfs → String → List Nat → Nat → Bool × Vfs
  | [], name, data, owner => (true, [⟨name, data, owner, false⟩])
  | f :: rest, name, data, owner =>
    if f.name = name then
      if f.read_only then (false, f :: rest)
      else (true, { f with data := data, owner_pid := owner } :: rest)
    else
      let r := write_file rest name data owner
      (r.1, f :: r.2)

/-- Model of `delete_file` in src/src/vfs.rs: retain entries whose name
differs or which are read-only; report whether anything was removed. -/
def delete_file (vfs : Vfs) (name : String) : Bool × Vfs :=
  let kept := vfs.filter (fun f => f.name != name || f.read_only)
  (decide (kept.length < vfs.length), kept)

/-- Kernel-global state threaded through the host-call adapters of
src/src/wasm.rs: capability store, agent registry, IPC endpoint map, and
the VFS. -/
structure KernelState where
  store : CapStore
  reg : Registry
  ipc : Endpoints
  vfs : Vfs
  deriving DecidableEq

/-- Modelled from the spec: `KERNEL_SUPERVISOR_PID` is referenced by
`request_capability` in src/src/wasm.rs but absent from the `ipc.rs`
present in the tree; the spec reserves `ProcessId(0)` as the IPC recipient
for all `request_capability` audit messages. -/
def KERNEL_SUPERVISOR_PID : Nat := 0

/-- Byte encoding of an ASCII string (the audit messages built by
`request_capability` are ASCII, where UTF-8 bytes coincide with code
points). -/
def encodeAscii (s : String) : List Nat :=
  s.data.map Char.toNat

/-- Decision logic of the `file_read` host function in src/src/wasm.rs:
resolve the caller's bag, deny with 2 unless `can_read_file` holds, then 0
when the VFS has the file and 3 when it does not. The copies into guest
memory carry no further decision. -/
def file_read (st : KernelState) (agent_pid : Nat) (path : String) : Nat :=
  let caps := agent_capabilities st.reg agent_pid
  if ¬ can_read_file st.store caps path then 2
  else
    match open_file st.vfs path with
    | some _ => 0
    | none => 3

/-- Decision logic of the `file_write` host function in src/src/wasm.rs:
deny with 2 unless `can_write_file` holds, then delegate to the VFS
returning 0 on success and 1 on refusal. -/
def file_write (st : KernelState) (agent_pid : Nat) (path : String) (data : List Nat) :
    Nat × KernelState :=
  let caps := agent_capabilities st.reg agent_pid
  if ¬ can_write_file st.store caps path then (2, st)
  else
    let r := write_file st.vfs path data agent_pid
    (if r.1 then 0 else 1, { st with vfs := r.2 })

/-- Decision logic of the `file_list` host function in src/src/wasm.rs:
deny with 2 unless `can_read_file` holds for the prefix, else 0 (the
listing is copied out unconditionally). -/
def file_list (st : KernelState) (agent_pid : Nat) (pfx : String) : Nat :=
  let caps := agent_capabilities st.reg agent_pid
  if ¬ can_read_file st.store caps pfx then 2 else 0

/-- Decision logic of the `send_ipc` host function in src/src/wasm.rs:
deny with 2 unless `can_send_to` holds for the target, else call
`send_message` with an empty capability list, mapping `Ok` to 0 and `Err`
to 1. -/
def send_ipc (st : KernelState) (sender_pid target_pid : Nat) (buf : List Nat) :
    Nat × KernelState :=
  if ¬ can_send_to st.store (agent_capabilities st.reg sender_pid) target_pid then (2, st)
  else
    match send_message st.store st.ipc sender_pid target_pid buf [] with
    | (.ok _, ipc1) => (0, { st with ipc := ipc1 })
    | (.error _, ipc1) => (1, { st with ipc := ipc1 })

/-- The escalation audit message built by `request_capability` in
src/src/wasm.rs via `format!`: `CAP_REQUEST:<pid>:<kind>:<detail>`. -/
def capRequestMsg (agent_pid cap_type : Nat) (detail : String) : String :=
  "CAP_REQUEST:" ++ toString agent_pid ++ ":" ++ toString cap_type ++ ":" ++ detail

/-- Decision logic of the `request_capability` host function in
src/src/wasm.rs: first send the audit message to the Kernel Supervisor
endpoint (result ignored), then auto-grant according to the reference
policy: kind 0 grants `Network`, kind 1 grants `FileSystem` with the
detail (or `"/agent/"` when empty) as prefix and both flags set, kind 2
grants `Spawn{max_children=5}`, each returning 0; any other kind grants
nothing and returns 1. -/
def request_capability (st : KernelState) (agent_pid cap_type : Nat) (detail : String) :
    Nat × KernelState :=
  let ipc1 := (send_message st.store st.ipc agent_pid KERNEL_SUPERVISOR_PID
    (encodeAscii (capRequestMsg agent_pid cap_type detail)) []).2
  match cap_type with
  | 0 =>
    let r := create_capability st.store .Network
    (0, ⟨r.2, grant_capability_to_agent st.reg agent_pid r.1, ipc1, st.vfs⟩)
  | 1 =>
    let pfx := if detail = "" then "/agent/" else detail
    let r := create_capability st.store (.FileSystem pfx true true)
    (0, ⟨r.2, grant_capability_to_agent st.reg agent_pid r.1, ipc1, st.vfs⟩)
  | 2 =>
    let r := create_capability st.store (.Spawn 5)
    (0, ⟨r.2, grant_capability_to_agent st.reg agent_pid r.1, ipc1, st.vfs⟩)
  | _ => (1, ⟨st.store, st.reg, ipc1, st.vfs⟩)

/-! Helper lemmas shared by the claim theorems. -/

/-- Characterization of `find_capability`: it holds iff some id of the bag
resolves to a capability satisfying the predicate. -/
theorem find_capability_iff (s : CapStore) (caps : List Nat) (p : Capability → Bool) :
    find_capability s caps p = true ↔
      ∃ id ∈ caps, ∃ c, validate_capability s id = some c ∧ p c = true := by
  unfold find_capability
  rw [List.any_eq_true]
  constructor
  · rintro ⟨id, hid, hmatch⟩
    refine ⟨id, hid, ?_⟩
    cases hval : validate_capability s id with
    | none => simp [hval] at hmatch
    | some c => exact ⟨c, rfl, by simpa [hval] using hmatch⟩
  · rintro ⟨id, hid, c, hval, hp⟩
    exact ⟨id, hid, by simp [hval, hp]⟩

/-- An id that does not resolve contributes nothing to `find_capability`:
dropping every occurrence of it from the bag changes no answer. -/
theorem find_capability_filter_unresolved (s : CapStore) (id : Nat) (caps : List Nat)
    (p : Capability → Bool) (h : validate_capability s id = none) :
    find_capability s caps p = find_capability s (caps.filter (fun c => c != id)) p := by
  unfold find_capability
  induction caps with
  | nil => rfl
  | cons hd tl ih =>
    by_cases hhd : hd = id
    · subst hhd
      simpa [List.filter_cons, h] using ih
    · simp [List.filter_cons, hhd, List.any_cons, ih]

/-- Filtering out a key makes its lookup fail. -/
theorem lookup_filter_self (l : List (Nat × Capability)) (id : Nat) :
    (l.filter (fun p => p.1 != id)).lookup id = none := by
  induction l with
  | nil => rfl
  | cons hd tl ih =>
    by_cases h : hd.1 = id
    · simpa [List.filter_cons, h] using ih
    · have hne : (id == hd.1) = false := by
        simp [Ne.symm h]
      simp only [List.filter_cons]
      have hkeep : (hd.1 != id) = true := by
        simp [h]
      rw [hkeep]
      simp only [List.lookup, hne]
      exact ih

/-- Lookup after `setEndpoint` at the written key. -/
theorem lookup_setEndpoint_self (eps : Endpoints) (pid : Nat) (ep0 ep : IpcEndpoint)
    (h : eps.lookup pid = some ep0) :
    (setEndpoint eps pid ep).lookup pid = some ep := by
  induction eps with
  | nil => simp [List.lookup] at h
  | cons hd tl ih =>
    obtain ⟨k, v⟩ := hd
    by_cases hk : k = pid
    · subst hk
      simp [setEndpoint, List.lookup]
    · rw [List.lookup] at h
      simp only [setEndpoint, if_neg hk]
      rw [List.lookup]
      have hne : (pid == k) = false := by
        simp [Ne.symm hk]
      rw [hne] at h
      simpa [hne] using ih h

/-- Lookup after `setEndpoint` at any other key. -/
theorem lookup_setEndpoint_ne (eps : Endpoints) (pid q : Nat) (ep : IpcEndpoint)
    (h : q ≠ pid) :
    (setEndpoint eps pid ep).lookup q = eps.lookup q := by
  induction eps with
  | nil => rfl
  | cons hd tl ih =>
    obtain ⟨k, v⟩ := hd
    by_cases hk : k = pid
    · subst hk
      have hq : (q == k) = false := by
        simp [h]
      simp [setEndpoint, List.lookup, hq]
    · simp only [setEndpoint, if_neg hk]
      rw [List.lookup, List.lookup]
      cases hq : (q == k) with
      | true => rfl
      | false => exact ih

/-- Lookup after `updateAgent` at the written key. -/
theorem lookup_updateAgent_self (l : List (Nat × Agent)) (id : Nat) (a : Agent)
    (f : Agent → Agent) (h : l.lookup id = some a) :
    (updateAgent l id f).lookup id = some (f a) := by
  induction l with
  | nil => simp [List.lookup] at h
  | cons hd tl ih =>
    obtain ⟨k, v⟩ := hd
    by_cases hk : k = id
    · subst hk
      rw [List.lookup] at h
      simp only [beq_self_eq_true] at h
      obtain rfl : v = a := Option.some.inj h
      simp [updateAgent, List.lookup]
    · rw [List.lookup] at h
      have hne : (id == k) = false := by
        simp [Ne.symm hk]
      rw [hne] at h
      simp only [updateAgent, if_neg hk]
      rw [List.lookup, hne]
      exact ih h

/-- Lookup after `updateAgent` at any other key. -/
theorem lookup_updateAgent_ne (l : List (Nat × Agent)) (id q : Nat)
    (f : Agent → Agent) (h : q ≠ id) :
    (updateAgent l id f).lookup q = l.lookup q := by
  induction l with
  | nil => rfl
  | cons hd tl ih =>
    obtain ⟨k, v⟩ := hd
    by_cases hk : k = id
    · subst hk
      have hq : (q == k) = false := by
        simp [h]
      simp [updateAgent, List.lookup, hq]
    · simp only [updateAgent, if_neg hk]
      rw [List.lookup, List.lookup]
      cases hq : (q == k) with
      | true => rfl
      | false => exact ih

/-- Unknown key leaves `updateAgent` untouched. -/
theorem updateAgent_absent (l : List (Nat × Agent)) (id : Nat) (f : Agent → Agent)
    (h : l.lookup id = none) :
    updateAgent l id f = l := by
  induction l with
  | nil => rfl
  | cons hd tl ih =>
    obtain ⟨k, v⟩ := hd
    rw [List.lookup] at h
    by_cases hk : k = id
    · subst hk
      simp at h
    · have hne : (id == k) = false := by
        simp [Ne.symm hk]
      rw [hne] at h
      simp [updateAgent, hk, ih h]

/-- Characterization of `can_read_memory`. -/
theorem can_read_memory_iff (s : CapStore) (caps : List Nat) (a : Nat) :
    can_read_memory s caps a = true ↔
      ∃ id ∈ caps, ∃ base size w e,
        validate_capability s id = some (.Memory base size true w e) ∧
        base ≤ a ∧ a < base + size := by
  rw [can_read_memory, find_capability_iff]
  constructor
  · rintro ⟨id, hid, c, hval, hp⟩
    refine ⟨id, hid, ?_⟩
    cases c with
    | Memory base size r w e =>
      cases r with
      | false => simp at hp
      | true =>
        simp only [Bool.and_eq_true, decide_eq_true_eq] at hp
        exact ⟨base, size, w, e, hval, hp.1, hp.2⟩
    | Interrupt irq => simp at hp
    | Port port => simp at hp
    | Process pid cs cr => simp at hp
    | Spawn mc => simp at hp
    | Network => simp at hp
    | FileSystem pfx r w => simp at hp
  · rintro ⟨id, hid, base, size, w, e, hval, h1, h2⟩
    exact ⟨id, hid, _, hval, by simp [h1, h2]⟩

/-- Characterization of `can_write_memory`. -/
theorem can_write_memory_iff (s : CapStore) (caps : List Nat) (a : Nat) :
    can_write_memory s caps a = true ↔
      ∃ id ∈ caps, ∃ base size r e,
        validate_capability s id = some (.Memory base size r true e) ∧
        base ≤ a ∧ a < base + size := by
  rw [can_write_memory, find_capability_iff]
  constructor
  · rintro ⟨id, hid, c, hval, hp⟩
    refine ⟨id, hid, ?_⟩
    cases c with
    | Memory base size r w e =>
      cases w with
      | false => simp at hp
      | true =>
        simp only [Bool.and_eq_true, decide_eq_true_eq] at hp
        exact ⟨base, size, r, e, hval, hp.1, hp.2⟩
    | Interrupt irq => simp at hp
    | Port port => simp at hp
    | Process pid cs cr => simp at hp
    | Spawn mc => simp at hp
    | Network => simp at hp
    | FileSystem pfx r w => simp at hp
  · rintro ⟨id, hid, base, size, r, e, hval, h1, h2⟩
    exact ⟨id, hid, _, hval, by simp [h1, h2]⟩

/-- Characterization of `can_read_file`. -/
theorem can_read_file_iff (s : CapStore) (caps : List Nat) (path : String) :
    can_read_file s caps path = true ↔
      ∃ id ∈ caps, ∃ pfx w,
        validate_capability s id = some (.FileSystem pfx true w) ∧
        pfx.data.isPrefixOf path.data = true := by
  rw [can_read_file, find_capability_iff]
  constructor
  · rintro ⟨id, hid, c, hval, hp⟩
    refine ⟨id, hid, ?_⟩
    cases c with
    | FileSystem pfx r w =>
      cases r with
      | false => simp at hp
      | true => exact ⟨pfx, w, hval, hp⟩
    | Memory base size r w e => simp at hp
    | Interrupt irq => simp at hp
    | Port port => simp at hp
    | Process pid cs cr => simp at hp
    | Spawn mc => simp at hp
    | Network => simp at hp
  · rintro ⟨id, hid, pfx, w, hval, hp⟩
    exact ⟨id, hid, _, hval, hp⟩

/-- Characterization of `can_write_file`. -/
theorem can_write_file_iff (s : CapStore) (caps : List Nat) (path : String) :
    can_write_file s caps path = true ↔
      ∃ id ∈ caps, ∃ pfx r,
        validate_capability s id = some (.FileSystem pfx r true) ∧
        pfx.data.isPrefixOf path.data = true := by
  rw [can_write_file, find_capability_iff]
  constructor
  · rintro ⟨id, hid, c, hval, hp⟩
    refine ⟨id, hid, ?_⟩
    cases c with
    | FileSystem pfx r w =>
      cases w with
      | false => simp at hp
      | true => exact ⟨pfx, r, hval, hp⟩
    | Memory base size r w e => simp at hp
    | Interrupt irq => simp at hp
    | Port port => simp at hp
    | Process pid cs cr => simp at hp
    | Spawn mc => simp at hp
    | Network => simp at hp
  · rintro ⟨id, hid, pfx, r, hval, hp⟩
    exact ⟨id, hid, _, hval, hp⟩

/-- In a one-entry store with that entry's id as the whole bag,
`find_capability` is just the predicate on the stored capability. -/
theorem find_capability_singleton (id next : Nat) (c : Capability) (p : Capability → Bool) :
    find_capability ⟨[(id, c)], next⟩ [id] p = p c := by
  simp [find_capability, validate_capability, List.lookup]

/-- C9: `can_read_memory` (resp. `can_write_memory`) holds iff some
resolvable `Memory` capability in the bag carries the read (resp. write)
flag and covers the address (`base ≤ a < base + size`); a `Memory`
capability with `size = 0` covers no address; and for
`Memory{base=0x1000, size=0x1000}` the addresses `0x1000` and `0x1FFF` are
covered while `0x2000` is not. -/
theorem memory_predicates_cover_ranges (s : CapStore) (caps : List Nat) (a : Nat) :
    (can_read_memory s caps a = true ↔
      ∃ id ∈ caps, ∃ base size w e,
        validate_capability s id = some (.Memory base size true w e) ∧
        base ≤ a ∧ a < base + size) ∧
    (can_write_memory s caps a = true ↔
      ∃ id ∈ caps, ∃ base size r e,
        validate_capability s id = some (.Memory base size r true e) ∧
        base ≤ a ∧ a < base + size) ∧
    (∀ id base w e,
      can_read_memory ⟨[(id, .Memory base 0 true w e)], id + 1⟩ [id] a = false ∧
      can_write_memory ⟨[(id, .Memory base 0 w true e)], id + 1⟩ [id] a = false) ∧
    (can_read_memory ⟨[(1, .Memory 0x1000 0x1000 true false false)], 2⟩ [1] 0x1000 = true ∧
      can_read_memory ⟨[(1, .Memory 0x1000 0x1000 true false false)], 2⟩ [1] 0x1FFF = true ∧
      can_read_memory ⟨[(1, .Memory 0x1000 0x1000 true false false)], 2⟩ [1] 0x2000 = false) := by
  refine ⟨can_read_memory_iff s caps a, can_write_memory_iff s caps a, ?_, by decide⟩
  intro id base w e
  constructor
  · rw [can_read_memory, find_capability_singleton]
    by_cases h : base ≤ a
    · have h2 : ¬ a < base + 0 := by omega
      simp [h2]
    · simp [h]
  · rw [can_write_memory, find_capability_singleton]
    by_cases h : base ≤ a
    · have h2 : ¬ a < base + 0 := by omega
      simp [h2]
    · simp [h]

/-- C2: after `revoke_capability id` the id no longer resolves, so no
authorization predicate can be satisfied through it; and an id that does
not resolve behaves exactly as if it were absent from the bag — dropping
every occurrence of it changes no predicate's answer (stated generically
for `find_capability` and instantiated at the five derived predicates over
the revoked store). -/
theorem revoked_and_dangling_ids_grant_nothing (store : CapStore) (id : Nat)
    (caps : List Nat) (addr tgt : Nat) :
    validate_capability (revoke_capability store id).1 id = none ∧
    (∀ s : CapStore, validate_capability s id = none →
      ∀ p : Capability → Bool,
        find_capability s caps p = find_capability s (caps.filter (fun c => c != id)) p) ∧
    (can_read_memory (revoke_capability store id).1 caps addr =
      can_read_memory (revoke_capability store id).1 (caps.filter (fun c => c != id)) addr) ∧
    (can_write_memory (revoke_capability store id).1 caps addr =
      can_write_memory (revoke_capability store id).1 (caps.filter (fun c => c != id)) addr) ∧
    (can_send_to (revoke_capability store id).1 caps tgt =
      can_send_to (revoke_capability store id).1 (caps.filter (fun c => c != id)) tgt) ∧
    (can_spawn (revoke_capability store id).1 caps =
      can_spawn (revoke_capability store id).1 (caps.filter (fun c => c != id))) ∧
    (can_access_network (revoke_capability store id).1 caps =
      can_access_network (revoke_capability store id).1 (caps.filter (fun c => c != id))) := by
  have hnone : validate_capability (revoke_capability store id).1 id = none := by
    rw [validate_capability, revoke_capability]
    exact lookup_filter_self store.entries id
  refine ⟨hnone, fun s hs p => find_capability_filter_unresolved s id caps p hs,
    ?_, ?_, ?_, ?_, ?_⟩
  · exact find_capability_filter_unresolved _ id caps _ hnone
  · exact find_capability_filter_unresolved _ id caps _ hnone
  · exact find_capability_filter_unresolved _ id caps _ hnone
  · exact find_capability_filter_unresolved _ id caps _ hnone
  · exact find_capability_filter_unresolved _ id caps _ hnone

/-- Witness for the revocation/dangling-id theorem at a concrete store. -/
theorem revoked_and_dangling_ids_grant_nothing_witness :
    validate_capability (revoke_capability ⟨[(1, .Network)], 2⟩ 1).1 1 = none ∧
    find_capability ⟨[], 1⟩ [1] (fun _ => true) =
      find_capability ⟨[], 1⟩ ([1].filter (fun c => c != 1)) (fun _ => true) := by
  have h := revoked_and_dangling_ids_grant_nothing ⟨[(1, .Network)], 2⟩ 1 [1] 0 0
  exact ⟨h.1, h.2.1 ⟨[], 1⟩ rfl (fun _ => true)⟩

/-- C1 (spec-modelled predicates): when no capability id in the caller's
bag resolves to a `FileSystem` capability whose prefix is a prefix of the
path with the read (resp. write) flag set, the `file_read`, `file_write`
and `file_list` host calls for that path all return denial code 2;
conversely, a bag holding such a capability satisfies `can_read_file`
(resp. `can_write_file`). -/
theorem file_calls_denied_without_matching_cap (st : KernelState) (pid : Nat)
    (path : String) (data : List Nat)
    (hr : ¬ ∃ id ∈ agent_capabilities st.reg pid, ∃ pfx w,
        validate_capability st.store id = some (.FileSystem pfx true w) ∧
        pfx.data.isPrefixOf path.data = true)
    (hw : ¬ ∃ id ∈ agent_capabilities st.reg pid, ∃ pfx r,
        validate_capability st.store id = some (.FileSystem pfx r true) ∧
        pfx.data.isPrefixOf path.data = true) :
    file_read st pid path = 2 ∧
    (file_write st pid path data).1 = 2 ∧
    file_list st pid path = 2 ∧
    (∀ bag, (∃ id ∈ bag, ∃ pfx w,
        validate_capability st.store id = some (.FileSystem pfx true w) ∧
        pfx.data.isPrefixOf path.data = true) →
      can_read_file st.store bag path = true) ∧
    (∀ bag, (∃ id ∈ bag, ∃ pfx r,
        validate_capability st.store id = some (.FileSystem pfx r true) ∧
        pfx.data.isPrefixOf path.data = true) →
      can_write_file st.store bag path = true) := by
  have hrf : can_read_file st.store (agent_capabilities st.reg pid) path = false := by
    rw [← Bool.not_eq_true, can_read_file_iff]
    exact hr
  have hwf : can_write_file st.store (agent_capabilities st.reg pid) path = false := by
    rw [← Bool.not_eq_true, can_write_file_iff]
    exact hw
  refine ⟨by simp [file_read, hrf], by simp [file_write, hwf], by simp [file_list, hrf],
    fun bag hex => (can_read_file_iff st.store bag path).mpr hex,
    fun bag hex => (can_write_file_iff st.store bag path).mpr hex⟩

/-- Witness for the file-call denial theorem: an agent with an empty bag is
denied all three calls, and a bag holding a matching `FileSystem`
capability satisfies the predicates. -/
theorem file_calls_denied_without_matching_cap_witness :
    file_read ⟨⟨[(1, .FileSystem "/tmp/" true true)], 2⟩, ⟨[], 1⟩, [], []⟩ 5 "/tmp/x" = 2 ∧
    can_read_file ⟨[(1, .FileSystem "/tmp/" true true)], 2⟩ [1] "/tmp/x" = true ∧
    can_write_file ⟨[(1, .FileSystem "/tmp/" true true)], 2⟩ [1] "/tmp/x" = true := by
  have h := file_calls_denied_without_matching_cap
    ⟨⟨[(1, .FileSystem "/tmp/" true true)], 2⟩, ⟨[], 1⟩, [], []⟩ 5 "/tmp/x" []
    (by simp [agent_capabilities, List.lookup])
    (by simp [agent_capabilities, List.lookup])
  refine ⟨h.1, ?_, ?_⟩
  · exact h.2.2.2.1 [1] ⟨1, by decide, "/tmp/", true, rfl, by decide⟩
  · exact h.2.2.2.2 [1] ⟨1, by decide, "/tmp/", true, rfl, by decide⟩

/-- Every successful lookup in a `setEndpoint` result is either the new
endpoint or was already there. -/
theorem setEndpoint_absent (eps : Endpoints) (pid : Nat) (ep : IpcEndpoint)
    (h : eps.lookup pid = none) :
    setEndpoint eps pid ep = eps := by
  induction eps with
  | nil => rfl
  | cons hd tl ih =>
    obtain ⟨k, v⟩ := hd
    rw [List.lookup] at h
    by_cases hk : k = pid
    · subst hk
      simp at h
    · have hne : (pid == k) = false := by
        simp [Ne.symm hk]
      rw [hne] at h
      simp [setEndpoint, hk, ih h]

/-- Every successful lookup in a `setEndpoint` result is either the new
endpoint or was already there. -/
theorem lookup_setEndpoint_cases (eps : Endpoints) (pid q : Nat) (ep ep' : IpcEndpoint)
    (h : (setEndpoint eps pid ep).lookup q = some ep') :
    ep' = ep ∨ eps.lookup q = some ep' := by
  by_cases hq : q = pid
  · subst hq
    cases hl : eps.lookup q with
    | none =>
      rw [setEndpoint_absent eps q ep hl, hl] at h
      simp at h
    | some ep0 =>
      left
      rw [lookup_setEndpoint_self eps q ep0 ep hl] at h
      exact (Option.some.inj h).symm
  · right
    rw [lookup_setEndpoint_ne eps pid q ep hq] at h
    exact h

/-- C3: `send_message` rejects the whole send — leaving the endpoint map
exactly as before, no partial enqueue — when some capability id fails to
resolve, when the recipient has no endpoint, or when the recipient's queue
already holds `max_messages` messages; otherwise it returns `Ok` and
appends exactly one message `{sender, data, caps}` to the recipient's
queue, leaving every other queue unchanged. -/
theorem send_message_rejects_whole_or_appends_one (store : CapStore) (eps : Endpoints)
    (sender recipient : Nat) (data caps : List Nat) :
    ((∃ id ∈ caps, validate_capability store id = none) ∨
        eps.lookup recipient = none ∨
        (∃ ep, eps.lookup recipient = some ep ∧ ep.max_messages ≤ ep.messages.length) →
      ∃ e, send_message store eps sender recipient data caps = (.error e, eps)) ∧
    (∀ ep, eps.lookup recipient = some ep → ep.messages.length < ep.max_messages →
      (∀ id ∈ caps, (validate_capability store id).isSome = true) →
      (send_message store eps sender recipient data caps).1 = .ok () ∧
      (send_message store eps sender recipient data caps).2.lookup recipient =
        some ⟨ep.messages ++ [⟨sender, data, caps⟩], ep.max_messages⟩ ∧
      ∀ q, q ≠ recipient →
        (send_message store eps sender recipient data caps).2.lookup q = eps.lookup q) := by
  constructor
  · intro hdisj
    by_cases hval : caps.any (fun id => (validate_capability store id).isNone) = true
    · exact ⟨"Invalid capability", by simp [send_message, hval]⟩
    · rcases hdisj with hinv | hnone | ⟨ep, heq, hfull⟩
      · exfalso
        obtain ⟨id, hid, hidnone⟩ := hinv
        exact hval (List.any_eq_true.mpr ⟨id, hid, by simp [hidnone]⟩)
      · exact ⟨"No such endpoint", by simp [send_message, hval, hnone]⟩
      · exact ⟨"Message queue full", by simp [send_message, hval, heq, hfull]⟩
  · intro ep heq hlen hvalid
    have hval : caps.any (fun id => (validate_capability store id).isNone) = false := by
      rw [← Bool.not_eq_true, List.any_eq_true]
      rintro ⟨id, hid, hnone⟩
      have hs := hvalid id hid
      simp only [Option.isNone_iff_eq_none] at hnone
      rw [hnone] at hs
      simp at hs
    have hnotfull : ¬ ep.max_messages ≤ ep.messages.length := by omega
    have hsend : send_message store eps sender recipient data caps =
        (.ok (), setEndpoint eps recipient
          ⟨ep.messages ++ [⟨sender, data, caps⟩], ep.max_messages⟩) := by
      simp [send_message, hval, heq, hnotfull]
    refine ⟨by rw [hsend], ?_, ?_⟩
    · rw [hsend]
      exact lookup_setEndpoint_self eps recipient ep _ heq
    · intro q hq
      rw [hsend]
      exact lookup_setEndpoint_ne eps recipient q _ hq

/-- Witness for the send atomicity theorem: an unresolvable capability id
rejects the send with the map unchanged, and a clean send returns `Ok`. -/
theorem send_message_rejects_whole_or_appends_one_witness :
    (∃ e, send_message ⟨[], 1⟩ [(2, ⟨[], 32⟩)] 1 2 [7] [9] =
      (.error e, [(2, ⟨[], 32⟩)])) ∧
    (send_message ⟨[], 1⟩ [(2, ⟨[], 32⟩)] 1 2 [7] []).1 = .ok () := by
  have h := send_message_rejects_whole_or_appends_one ⟨[], 1⟩ [(2, ⟨[], 32⟩)] 1 2 [7] [9]
  have h2 := send_message_rejects_whole_or_appends_one ⟨[], 1⟩ [(2, ⟨[], 32⟩)] 1 2 [7] []
  exact ⟨h.1 (Or.inl ⟨9, by decide, rfl⟩),
    (h2.2 ⟨[], 32⟩ rfl (by decide) (by simp)).1⟩

/-- The IPC queue-bound invariant: every endpoint's queue length is at most
its `max_messages`. -/
def queuesBounded (eps : Endpoints) : Prop :=
  ∀ pid ep, eps.lookup pid = some ep → ep.messages.length ≤ ep.max_messages

/-- One fixed enqueue to pid 2 (to exercise the 32-message bound). -/
def sendOnce (eps : Endpoints) : Except String Unit × Endpoints :=
  send_message ⟨[], 1⟩ eps 1 2 [7] []

/-- Endpoint state after `n` such enqueues, starting from the endpoint
`create_endpoint` makes for pid 2 on the empty map. -/
def afterSends : Nat → Endpoints
  | 0 => [(2, ⟨[], 32⟩)]
  | n + 1 => (sendOnce (afterSends n)).2

/-- C4: the queue bound `length ≤ max_messages` is an invariant:
`create_endpoint` (which sets `max_messages = 32`), `send_message` and
`receive_message` all preserve it; on a fresh endpoint the 32nd enqueue
succeeds and the 33rd fails with the queue-full error. -/
theorem ipc_queue_bound_invariant (store : CapStore) (eps : Endpoints)
    (pid sender recipient : Nat) (data caps : List Nat) :
    (queuesBounded eps → ∀ eps', create_endpoint eps pid = .ok eps' → queuesBounded eps') ∧
    (queuesBounded eps →
      queuesBounded (send_message store eps sender recipient data caps).2) ∧
    (queuesBounded eps → queuesBounded (receive_message eps pid).2) ∧
    create_endpoint [] 2 = .ok [(2, ⟨[], 32⟩)] ∧
    (sendOnce (afterSends 31)).1 = .ok () ∧
    (sendOnce (afterSends 32)).1 = .error "Message queue full" := by
  refine ⟨?_, ?_, ?_, rfl, rfl, rfl⟩
  · intro hB eps' hok
    rw [create_endpoint] at hok
    by_cases hex : (eps.lookup pid).isSome = true
    · simp [hex] at hok
    · simp only [hex, Bool.false_eq_true, if_false, if_neg] at hok
      obtain rfl : (pid, (⟨[], 32⟩ : IpcEndpoint)) :: eps = eps' := Except.ok.inj hok
      intro q ep h
      rw [List.lookup] at h
      cases hq : (q == pid) with
      | true =>
        rw [hq] at h
        obtain rfl : (⟨[], 32⟩ : IpcEndpoint) = ep := Option.some.inj h
        simp
      | false =>
        rw [hq] at h
        exact hB q ep h
  · intro hB
    by_cases hval : caps.any (fun id => (validate_capability store id).isNone) = true
    · simpa [send_message, hval] using hB
    · cases heq : eps.lookup recipient with
      | none => simpa [send_message, hval, heq] using hB
      | some ep =>
        by_cases hfull : ep.max_messages ≤ ep.messages.length
        · simpa [send_message, hval, heq, hfull] using hB
        · simp only [send_message, hval, heq, hfull, Bool.false_eq_true, if_false, if_neg]
          intro q ep' h
          rcases lookup_setEndpoint_cases eps recipient q _ ep' h with rfl | hold
          · simp only [List.length_append, List.length_singleton]
            omega
          · exact hB q ep' hold
  · intro hB
    cases heq : eps.lookup pid with
    | none => simpa [receive_message, heq] using hB
    | some ep =>
      cases hm : ep.messages with
      | nil => simpa [receive_message, heq, hm] using hB
      | cons m rest =>
        simp only [receive_message, heq, hm]
        intro q ep' h
        rcases lookup_setEndpoint_cases eps pid q _ ep' h with rfl | hold
        · have hb := hB pid ep heq
          rw [hm] at hb
          simp only [List.length_cons] at hb
          simp only
          omega
        · exact hB q ep' hold

/-- Witness for the queue-bound theorem: the invariant holds for a fresh
endpoint and is preserved by a receive. -/
theorem ipc_queue_bound_invariant_witness :
    queuesBounded (receive_message [(2, ⟨[], 32⟩)] 2).2 := by
  have hB : queuesBounded [(2, ⟨[], 32⟩)] := by
    intro q ep h
    rw [List.lookup] at h
    cases hq : (q == 2) with
    | true =>
      rw [hq] at h
      obtain rfl : (⟨[], 32⟩ : IpcEndpoint) = ep := Option.some.inj h
      simp
    | false =>
      rw [hq] at h
      simp at h
  exact (ipc_queue_bound_invariant ⟨[], 1⟩ [(2, ⟨[], 32⟩)] 2 1 2 [] []).2.2.1 hB

/-- Counterexample to C5 as stated: on a created, non-full endpoint whose
queue already holds an older message, send-then-receive yields the older
message, whose payload and sender differ from the send just performed. -/
theorem send_receive_roundtrip_counterexample :
    (send_message ⟨[], 1⟩ [(2, ⟨[⟨9, [1, 2, 3], []⟩], 32⟩)] 5 2 [4, 5] []).1 = .ok () ∧
    (receive_message
      (send_message ⟨[], 1⟩ [(2, ⟨[⟨9, [1, 2, 3], []⟩], 32⟩)] 5 2 [4, 5] []).2 2).1 =
      some ⟨9, [1, 2, 3], []⟩ ∧
    ([1, 2, 3] : List Nat) ≠ [4, 5] ∧ (9 : Nat) ≠ 5 := by
  refine ⟨rfl, rfl, by decide, by decide⟩

/-- C5 amended: when the recipient's queue is empty (and the endpoint
exists and is not full), send-then-receive returns exactly the message
just sent, with the given payload and sender; in general `send_message`
appends at the back of the queue and `receive_message` removes at the
front, so messages are dequeued in exactly the order they were sent. -/
theorem send_receive_fifo (store : CapStore) (eps : Endpoints)
    (sender pid : Nat) (data : List Nat) (ep : IpcEndpoint)
    (h : eps.lookup pid = some ep) (hlen : ep.messages.length < ep.max_messages) :
    (ep.messages = [] →
      (receive_message (send_message store eps sender pid data []).2 pid).1 =
        some ⟨sender, data, []⟩) ∧
    (send_message store eps sender pid data []).1 = .ok () ∧
    (send_message store eps sender pid data []).2.lookup pid =
      some ⟨ep.messages ++ [⟨sender, data, []⟩], ep.max_messages⟩ ∧
    (∀ m rest, ep.messages = m :: rest →
      (receive_message eps pid).1 = some m ∧
      (receive_message eps pid).2.lookup pid = some ⟨rest, ep.max_messages⟩) := by
  have hnotfull : ¬ ep.max_messages ≤ ep.messages.length := by omega
  have hsend : send_message store eps sender pid data [] =
      (.ok (), setEndpoint eps pid
        ⟨ep.messages ++ [⟨sender, data, []⟩], ep.max_messages⟩) := by
    simp [send_message, h, hnotfull]
  have hlook : (send_message store eps sender pid data []).2.lookup pid =
      some ⟨ep.messages ++ [⟨sender, data, []⟩], ep.max_messages⟩ := by
    rw [hsend]
    exact lookup_setEndpoint_self eps pid ep _ h
  refine ⟨?_, by rw [hsend], hlook, ?_⟩
  · intro hemp
    rw [receive_message.eq_def, hlook, hemp]
    simp
  · intro m rest hmr
    constructor
    · rw [receive_message.eq_def, h]
      simp [hmr]
    · rw [receive_message.eq_def, h]
      simp only [hmr]
      exact lookup_setEndpoint_self eps pid ep _ h

/-- Witness for the FIFO theorem at a fresh endpoint. -/
theorem send_receive_fifo_witness :
    (receive_message (send_message ⟨[], 1⟩ [(2, ⟨[], 32⟩)] 5 2 [4] []).2 2).1 =
      some ⟨5, [4], []⟩ := by
  have h := send_receive_fifo ⟨[], 1⟩ [(2, ⟨[], 32⟩)] 5 2 [4] ⟨[], 32⟩ rfl (by decide)
  exact h.1 rfl

/-- Counterexample to C6 as stated: granting to a `Terminated` agent is not
a no-op — `grant_capability_to_agent` appends the capability to the
terminated agent's bag (and its unit return distinguishes nothing). -/
theorem grant_to_terminated_counterexample :
    grant_capability_to_agent ⟨[(1, ⟨1, "a", [], .Terminated⟩)], 2⟩ 1 7 =
      ⟨[(1, ⟨1, "a", [7], .Terminated⟩)], 2⟩ := rfl

/-- C6 amended: `grant_capability_to_agent` appends the capability id to
the agent's bag whenever the agent id is present in the registry,
regardless of its state (`Running` or `Terminated`); when the id is
unknown it is a silent no-op on the whole registry; it returns no signal,
and in every case all other agents' records and the id counter are
unchanged. -/
theorem grant_appends_whenever_agent_exists (reg : Registry) (id cap : Nat) :
    (∀ a, reg.agents.lookup id = some a →
      (grant_capability_to_agent reg id cap).agents.lookup id =
        some { a with capabilities := a.capabilities ++ [cap] }) ∧
    (reg.agents.lookup id = none → grant_capability_to_agent reg id cap = reg) ∧
    (∀ q, q ≠ id →
      (grant_capability_to_agent reg id cap).agents.lookup q = reg.agents.lookup q) ∧
    (grant_capability_to_agent reg id cap).next_id = reg.next_id := by
  refine ⟨?_, ?_, ?_, rfl⟩
  · intro a ha
    exact lookup_updateAgent_self reg.agents id a _ ha
  · intro hnone
    show (⟨updateAgent reg.agents id _, reg.next_id⟩ : Registry) = reg
    rw [updateAgent_absent reg.agents id _ hnone]
  · intro q hq
    exact lookup_updateAgent_ne reg.agents id q _ hq

/-- Witness for the grant theorem at a one-agent registry. -/
theorem grant_appends_whenever_agent_exists_witness :
    (grant_capability_to_agent ⟨[(1, ⟨1, "a", [], .Running⟩)], 2⟩ 1 7).agents.lookup 1 =
      some ⟨1, "a", [7], .Running⟩ := by
  exact (grant_appends_whenever_agent_exists ⟨[(1, ⟨1, "a", [], .Running⟩)], 2⟩ 1 7).1
    ⟨1, "a", [], .Running⟩ rfl

/-- The names in the VFS after a `write_file`: unchanged when some entry
already bears the name, else the new name is appended at the end. -/
theorem write_file_names (vfs : Vfs) (name : String) (data : List Nat) (owner : Nat) :
    (write_file vfs name data owner).2.map (fun f => f.name) =
      if vfs.any (fun f => f.name == name) then vfs.map (fun f => f.name)
      else vfs.map (fun f => f.name) ++ [name] := by
  induction vfs with
  | nil => simp [write_file]
  | cons f rest ih =>
    by_cases hf : f.name = name
    · by_cases hro : f.read_only = true
      · simp [write_file, hf, hro]
      · simp [write_file, hf, hro]
    · by_cases hrest : rest.any (fun f => f.name == name) = true
      · simp [write_file, hf, ih, hrest]
      · simp [write_file, hf, ih, hrest]

/-- `write_file` preserves uniqueness of VFS names. -/
theorem write_file_preserves_nodup (vfs : Vfs) (name : String) (data : List Nat)
    (owner : Nat) (h : (vfs.map (fun f => f.name)).Nodup) :
    ((write_file vfs name data owner).2.map (fun f => f.name)).Nodup := by
  rw [write_file_names]
  by_cases hany : vfs.any (fun f => f.name == name) = true
  · simpa [hany] using h
  · have hnotin : name ∉ vfs.map (fun f => f.name) := by
      intro hmem
      apply hany
      rw [List.any_eq_true]
      obtain ⟨f, hfmem, hfname⟩ := List.mem_map.mp hmem
      exact ⟨f, hfmem, by simp [hfname]⟩
    simp [hany, List.nodup_append, h, hnotin]

/-- `delete_file` preserves uniqueness of VFS names. -/
theorem delete_file_preserves_nodup (vfs : Vfs) (name : String)
    (h : (vfs.map (fun f => f.name)).Nodup) :
    ((delete_file vfs name).2.map (fun f => f.name)).Nodup :=
  List.Nodup.sublist (List.Sublist.map _ (List.filter_sublist vfs)) h

/-- `delete_file` never removes a read-only entry. -/
theorem delete_file_keeps_readonly (vfs : Vfs) (name : String) (f : VirtualFile)
    (hf : f ∈ vfs) (hro : f.read_only = true) :
    f ∈ (delete_file vfs name).2 :=
  List.mem_filter.mpr ⟨hf, by simp [hro]⟩

/-- On a VFS with unique names, `write_file` fails exactly when an entry
with the name is read-only, and a failing write leaves the store
unchanged. -/
theorem write_file_fails_iff (vfs : Vfs) (name : String) (data : List Nat) (owner : Nat)
    (h : (vfs.map (fun f => f.name)).Nodup) :
    ((write_file vfs name data owner).1 = false ↔
      ∃ f ∈ vfs, f.name = name ∧ f.read_only = true) ∧
    ((write_file vfs name data owner).1 = false →
      (write_file vfs name data owner).2 = vfs) := by
  induction vfs with
  | nil => simp [write_file]
  | cons f rest ih =>
    have h' : (f.name :: rest.map (fun g => g.name)).Nodup := by
      rw [List.map_cons] at h
      exact h
    have hnd := List.nodup_cons.mp h'
    by_cases hf : f.name = name
    · by_cases hro : f.read_only = true
      · have hres : write_file (f :: rest) name data owner = (false, f :: rest) := by
          simp [write_file, hf, hro]
        refine ⟨?_, ?_⟩
        · rw [hres]
          constructor
          · intro _
            exact ⟨f, List.mem_cons_self f rest, hf, hro⟩
          · intro _
            rfl
        · intro _
          rw [hres]
      · have hres : write_file (f :: rest) name data owner =
            (true, { f with data := data, owner_pid := owner } :: rest) := by
          simp [write_file, hf, hro]
        refine ⟨?_, ?_⟩
        · rw [hres]
          constructor
          · intro hfalse
            simp at hfalse
          · rintro ⟨g, hg, hgname, hgro⟩
            rcases List.mem_cons.mp hg with rfl | hgrest
            · exact absurd hgro hro
            · exfalso
              apply hnd.1
              rw [hf, ← hgname]
              exact List.mem_map_of_mem _ hgrest
        · intro hfalse
          rw [hres] at hfalse
          simp at hfalse
    · have ihh := ih hnd.2
      have hfst : (write_file (f :: rest) name data owner).1 =
          (write_file rest name data owner).1 := by
        simp [write_file, hf]
      refine ⟨?_, ?_⟩
      · rw [hfst, ihh.1]
        constructor
        · rintro ⟨g, hg, hn, hro2⟩
          exact ⟨g, List.mem_cons_of_mem f hg, hn, hro2⟩
        · rintro ⟨g, hg, hn, hro2⟩
          rcases List.mem_cons.mp hg with rfl | hgrest
          · exact absurd hn hf
          · exact ⟨g, hgrest, hn, hro2⟩
      · intro hfalse
        have h2 : (write_file rest name data owner).1 = false := by
          rw [← hfst]
          exact hfalse
        simp [write_file, hf, ihh.2 h2]

/-- Counterexample to C7 as stated: `register_file` pushes unconditionally,
so registering the same name twice yields two entries with equal names —
the VFS name-uniqueness is not preserved by every operation. -/
theorem vfs_duplicate_names_counterexample :
    (register_file (register_file [] "a" [1]) "a" [2]).map (fun f => f.name) =
      ["a", "a"] ∧
    ¬ ((register_file (register_file [] "a" [1]) "a" [2]).map (fun f => f.name)).Nodup := by
  refine ⟨rfl, by decide⟩

/-- C7 amended: `write_file` and `delete_file` preserve VFS name
uniqueness (on a unique-name store, `write_file` returns false and leaves
the store unchanged iff the entry with that name is read-only, otherwise
it overwrites in place or appends exactly one new entry), and
`delete_file` refuses to delete read-only entries; `register_file`,
however, appends unconditionally and can duplicate an existing name. -/
theorem vfs_write_delete_preserve_unique_names (vfs : Vfs) (name : String)
    (data : List Nat) (owner : Nat)
    (h : (vfs.map (fun f => f.name)).Nodup) :
    ((write_file vfs name data owner).2.map (fun f => f.name)).Nodup ∧
    ((delete_file vfs name).2.map (fun f => f.name)).Nodup ∧
    ((write_file vfs name data owner).1 = false ↔
      ∃ f ∈ vfs, f.name = name ∧ f.read_only = true) ∧
    ((write_file vfs name data owner).1 = false →
      (write_file vfs name data owner).2 = vfs) ∧
    (∀ f ∈ vfs, f.read_only = true → f ∈ (delete_file vfs name).2) :=
  ⟨write_file_preserves_nodup vfs name data owner h,
    delete_file_preserves_nodup vfs name h,
    (write_file_fails_iff vfs name data owner h).1,
    (write_file_fails_iff vfs name data owner h).2,
    fun f hf hro => delete_file_keeps_readonly vfs name f hf hro⟩

/-- Witness for the VFS uniqueness theorem: writing over the read-only
entry returns false and deleting keeps it. -/
theorem vfs_write_delete_preserve_unique_names_witness :
    (write_file [⟨"a", [], 0, true⟩] "a" [1] 3).1 = false ∧
    (⟨"a", [], 0, true⟩ : VirtualFile) ∈ (delete_file [⟨"a", [], 0, true⟩] "a").2 := by
  have h := vfs_write_delete_preserve_unique_names [⟨"a", [], 0, true⟩] "a" [1] 3
    (by decide)
  refine ⟨h.2.2.1.mpr ⟨⟨"a", [], 0, true⟩, by decide, rfl, rfl⟩, ?_⟩
  exact h.2.2.2.2 ⟨"a", [], 0, true⟩ (by decide) rfl

/-- C8 (spec-modelled supervisor pid and `FileSystem` variant):
`request_capability` first sends the audit message
`CAP_REQUEST:<pid>:<kind>:<detail>` to the Kernel Supervisor endpoint
(pid 0) — the resulting IPC state is exactly that send's result, and when
endpoint 0 exists with room the message is enqueued — and then grants per
kind: 0 a fresh `Network`, 1 a `FileSystem` whose prefix is the detail
(or `"/agent/"` when the detail is empty) with `read=true, write=true`,
2 a `Spawn{max_children=5}`, appending the fresh id to the caller's bag
and returning 0; any other kind grants nothing, changes neither store nor
registry, and returns 1. -/
theorem request_capability_audits_then_grants (st : KernelState) (pid cap_type : Nat)
    (detail : String) (a : Agent) (ha : st.reg.agents.lookup pid = some a) :
    (request_capability st pid cap_type detail).2.ipc =
      (send_message st.store st.ipc pid KERNEL_SUPERVISOR_PID
        (encodeAscii (capRequestMsg pid cap_type detail)) []).2 ∧
    (∀ ep, st.ipc.lookup KERNEL_SUPERVISOR_PID = some ep →
      ep.messages.length < ep.max_messages →
      (request_capability st pid cap_type detail).2.ipc.lookup KERNEL_SUPERVISOR_PID =
        some ⟨ep.messages ++
          [⟨pid, encodeAscii (capRequestMsg pid cap_type detail), []⟩],
          ep.max_messages⟩) ∧
    (cap_type = 0 →
      (request_capability st pid cap_type detail).1 = 0 ∧
      agent_capabilities (request_capability st pid cap_type detail).2.reg pid =
        a.capabilities ++ [st.store.next] ∧
      validate_capability (request_capability st pid cap_type detail).2.store
        st.store.next = some .Network) ∧
    (cap_type = 1 →
      (request_capability st pid cap_type detail).1 = 0 ∧
      agent_capabilities (request_capability st pid cap_type detail).2.reg pid =
        a.capabilities ++ [st.store.next] ∧
      validate_capability (request_capability st pid cap_type detail).2.store
        st.store.next =
        some (.FileSystem (if detail = "" then "/agent/" else detail) true true)) ∧
    (cap_type = 2 →
      (request_capability st pid cap_type detail).1 = 0 ∧
      agent_capabilities (request_capability st pid cap_type detail).2.reg pid =
        a.capabilities ++ [st.store.next] ∧
      validate_capability (request_capability st pid cap_type detail).2.store
        st.store.next = some (.Spawn 5)) ∧
    (3 ≤ cap_type →
      (request_capability st pid cap_type detail).1 = 1 ∧
      (request_capability st pid cap_type detail).2.store = st.store ∧
      (request_capability st pid cap_type detail).2.reg = st.reg) := by
  have hipc : (request_capability st pid cap_type detail).2.ipc =
      (send_message st.store st.ipc pid KERNEL_SUPERVISOR_PID
        (encodeAscii (capRequestMsg pid cap_type detail)) []).2 := by
    cases cap_type with
    | zero => rfl
    | succ n =>
      cases n with
      | zero => rfl
      | succ m =>
        cases m with
        | zero => rfl
        | succ k => rfl
  have hgrant := lookup_updateAgent_self st.reg.agents pid a
    (fun x => { x with capabilities := x.capabilities ++ [st.store.next] }) ha
  refine ⟨hipc, ?_, ?_, ?_, ?_, ?_⟩
  · intro ep hep hroom
    rw [hipc]
    have hnf : ¬ ep.max_messages ≤ ep.messages.length := by omega
    have hsend : send_message st.store st.ipc pid KERNEL_SUPERVISOR_PID
        (encodeAscii (capRequestMsg pid cap_type detail)) [] =
        (.ok (), setEndpoint st.ipc KERNEL_SUPERVISOR_PID
          ⟨ep.messages ++ [⟨pid, encodeAscii (capRequestMsg pid cap_type detail), []⟩],
            ep.max_messages⟩) := by
      simp [send_message, hep, hnf]
    rw [hsend]
    exact lookup_setEndpoint_self st.ipc KERNEL_SUPERVISOR_PID ep _ hep
  · rintro rfl
    refine ⟨rfl, ?_, ?_⟩
    · simp [request_capability, agent_capabilities, grant_capability_to_agent,
        create_capability, hgrant]
    · simp [request_capability, validate_capability, create_capability, List.lookup]
  · rintro rfl
    refine ⟨rfl, ?_, ?_⟩
    · simp [request_capability, agent_capabilities, grant_capability_to_agent,
        create_capability, hgrant]
    · simp [request_capability, validate_capability, create_capability, List.lookup]
  · rintro rfl
    refine ⟨rfl, ?_, ?_⟩
    · simp [request_capability, agent_capabilities, grant_capability_to_agent,
        create_capability, hgrant]
    · simp [request_capability, validate_capability, create_capability, List.lookup]
  · intro h3
    obtain ⟨k, rfl⟩ : ∃ k, cap_type = k + 3 := ⟨cap_type - 3, by omega⟩
    exact ⟨rfl, rfl, rfl⟩

/-- Witness for the escalation theorem: a concrete request of kind 0 by a
registered agent returns 0, appends the fresh capability id to the bag,
and delivers the audit message to endpoint 0. -/
theorem request_capability_audits_then_grants_witness :
    (request_capability ⟨⟨[], 1⟩, ⟨[(3, ⟨3, "w", [], .Running⟩)], 4⟩,
      [(0, ⟨[], 32⟩)], []⟩ 3 0 "").1 = 0 ∧
    agent_capabilities (request_capability ⟨⟨[], 1⟩, ⟨[(3, ⟨3, "w", [], .Running⟩)], 4⟩,
      [(0, ⟨[], 32⟩)], []⟩ 3 0 "").2.reg 3 = [1] ∧
    (request_capability ⟨⟨[], 1⟩, ⟨[(3, ⟨3, "w", [], .Running⟩)], 4⟩,
      [(0, ⟨[], 32⟩)], []⟩ 3 0 "").2.ipc.lookup 0 =
      some ⟨[⟨3, encodeAscii (capRequestMsg 3 0 ""), []⟩], 32⟩ := by
  have h := request_capability_audits_then_grants
    ⟨⟨[], 1⟩, ⟨[(3, ⟨3, "w", [], .Running⟩)], 4⟩, [(0, ⟨[], 32⟩)], []⟩ 3 0 ""
    ⟨3, "w", [], .Running⟩ rfl
  have h0 := h.2.2.1 rfl
  exact ⟨h0.1, h0.2.1, h.2.1 ⟨[], 32⟩ rfl (by decide)⟩

/-- C10: the `send_ipc` host call passes an empty capability list to
`send_message` (the guest surface has no way to attach capability
references): any message in any queue after a `send_ipc` call either was
already there before the call or carries an empty `capabilities` field. -/
theorem send_ipc_attaches_no_capabilities (st : KernelState)
    (sender target pid : Nat) (buf : List Nat) (ep' : IpcEndpoint) (m : Message)
    (h : (send_ipc st sender target buf).2.ipc.lookup pid = some ep')
    (hm : m ∈ ep'.messages) :
    (∃ ep, st.ipc.lookup pid = some ep ∧ m ∈ ep.messages) ∨ m.capabilities = [] := by
  by_cases hcan : can_send_to st.store (agent_capabilities st.reg sender) target = true
  · rw [send_ipc, if_neg (by simp [hcan])] at h
    cases hlook : st.ipc.lookup target with
    | none =>
      rw [show send_message st.store st.ipc sender target buf [] =
          (.error "No such endpoint", st.ipc) from by simp [send_message, hlook]] at h
      exact Or.inl ⟨ep', h, hm⟩
    | some ep =>
      by_cases hfull : ep.max_messages ≤ ep.messages.length
      · rw [show send_message st.store st.ipc sender target buf [] =
            (.error "Message queue full", st.ipc) from by
          simp [send_message, hlook, hfull]] at h
        exact Or.inl ⟨ep', h, hm⟩
      · rw [show send_message st.store st.ipc sender target buf [] =
            (.ok (), setEndpoint st.ipc target
              ⟨ep.messages ++ [⟨sender, buf, []⟩], ep.max_messages⟩) from by
          simp [send_message, hlook, hfull]] at h
        by_cases hpq : pid = target
        · subst hpq
          rw [lookup_setEndpoint_self st.ipc pid ep _ hlook] at h
          cases Option.some.inj h
          rcases List.mem_append.mp hm with hin | hnew
          · exact Or.inl ⟨ep, hlook, hin⟩
          · right
            rw [List.mem_singleton] at hnew
            rw [hnew]
        · rw [lookup_setEndpoint_ne st.ipc target pid _ hpq] at h
          exact Or.inl ⟨ep', h, hm⟩
  · rw [send_ipc, if_pos (by simp [hcan])] at h
    exact Or.inl ⟨ep', h, hm⟩

/-- Witness for the empty-capability theorem at a concrete permitted
send. -/
theorem send_ipc_attaches_no_capabilities_witness :
    (∃ ep, ([(2, (⟨[], 32⟩ : IpcEndpoint))] : Endpoints).lookup 2 = some ep ∧
      (⟨1, [9], []⟩ : Message) ∈ ep.messages) ∨
    (⟨1, [9], []⟩ : Message).capabilities = [] := by
  exact send_ipc_attaches_no_capabilities
    ⟨⟨[(1, .Process 2 true false)], 2⟩, ⟨[(1, ⟨1, "a", [1], .Running⟩)], 2⟩,
      [(2, ⟨[], 32⟩)], []⟩ 1 2 2 [9] ⟨[⟨1, [9], []⟩], 32⟩ ⟨1, [9], []⟩ rfl (by decide)

end Microkernel
